import Mathlib

/-!
Shallow embedding of the core data transformations of
`streamlit_supply_tracker.py` (catalog normalization, catalog store,
order log, last-ordered derivation, order building) together with
theorems checking the natural-language specification against the code.

Modelling conventions:
* pandas DataFrames are modelled as Lean lists of typed rows; a "wide"
  uploaded table is a list of columns, each column a list of cells.
* A cell carries both its `astype(str)` view (`text`) and its
  `pd.to_numeric(..., errors="coerce")` view (`numVal : Option ℚ`,
  `none` meaning NaN).  Python floats are modelled as rationals.
* `pd.to_datetime(..., errors="coerce")` is modelled by an arbitrary
  parse function `String → Option ℤ` (a parsed timestamp is an integer
  time point, `none` meaning NaT); theorems quantify over it.
* `sort_values` is modelled as a stable sort (insertion sort).
* Python string helpers (`strip`, `lower`, whitespace collapsing) are
  modelled on the character list of the string.
-/

namespace SupplyTracker

/-- Python `str.strip()` on a character list: drop leading and trailing
whitespace. -/
def trimChars (l : List Char) : List Char :=
  ((l.dropWhile Char.isWhitespace).reverse.dropWhile Char.isWhitespace).reverse

/-- Python `str.strip()` / pandas `.str.strip()`. -/
def stripStr (s : String) : String := String.mk (trimChars s.toList)

/-- Python `str.lower()`. -/
def lowerStr (s : String) : String := String.mk (s.toList.map Char.toLower)

/-- Replace each maximal whitespace run by a single space
(the regex substitution `\s+` → " "). -/
def squashWs : List Char → List Char
  | [] => []
  | [c] => if c.isWhitespace then [' '] else [c]
  | c :: d :: cs =>
    if c.isWhitespace ∧ d.isWhitespace then squashWs (d :: cs)
    else (if c.isWhitespace then ' ' else c) :: squashWs (d :: cs)

/-- `.str.replace(r"\s+", " ", regex=True).str.strip()` (line 80 of the
source): collapse internal whitespace runs to one space and trim. -/
def collapseWs (s : String) : String := String.mk (trimChars (squashWs s.toList))

/-- One spreadsheet cell: its string rendering (`astype(str)`) and the
result of `pd.to_numeric(·, errors="coerce")` (`none` = NaN). -/
structure Cell where
  text : String
  numVal : Option ℚ
deriving DecidableEq, Repr

/-- `int(x)` on a Python number: truncation toward zero (written with
natural division on `num`/`den` so that it evaluates in the kernel). -/
def truncQ (q : ℚ) : ℤ :=
  if 0 ≤ q.num then Int.ofNat (q.num.toNat / q.den)
  else -Int.ofNat ((-q.num).toNat / q.den)

/-- `pd.to_numeric(series, errors="coerce").notna().sum()`:
number of cells of the column that parse as a number. -/
def countNumeric (col : List Cell) : ℕ :=
  (col.filter (fun c => c.numVal.isSome)).length

/-- Python `max` on two rationals. -/
def ratMax (a b : ℚ) : ℚ := if a ≤ b then b else a

/-- The numeric-density test of `clean_catalog` (line 64 of the source):
`numeric_like >= max(5, len(series) * 0.1)`.  `len(series) * 0.1` is
modelled exactly as the rational `len/10`. -/
def acceptCol (col : List Cell) : Bool :=
  decide (ratMax 5 (mkRat (col.length) 10) ≤ (countNumeric col : ℚ))

/-- The row-emission loop for one accepted (name, product) column pair
(lines 67–72 of the source): names are `astype(str).str.strip()`-ed, a
row is emitted when the name is non-empty, not "nan" case-insensitively,
and the product cell parses; the product number is `int(prod)`. -/
def emitPair (nameCol prodCol : List Cell) : List (String × ℤ) :=
  (nameCol.zip prodCol).filterMap (fun nc =>
    match nc.2.numVal with
    | some q =>
        let name := stripStr nc.1.text
        if name ≠ "" ∧ lowerStr name ≠ "nan" then some (name, truncQ q) else none
    | none => none)

/-- The cursor loop of `clean_catalog` (lines 54–75), phrased on the
list of columns from the cursor onward: the product-number candidates
for the name column at the cursor are the next one to three columns; the
first candidate passing `acceptCol` is chosen, rows are emitted and the
cursor advances by 2, otherwise it advances by 1. -/
def scanCols : List (List Cell) → List (String × ℤ)
  | [] => []
  | [_] => []
  | c :: c2 :: rest =>
    match ((c2 :: rest).take 3).find? acceptCol with
    | some p => emitPair c p ++ scanCols rest
    | none => scanCols (c2 :: rest)

/-- All candidate rows built by the column scan (`tidy_rows`). -/
def builtRows (cols : List (List Cell)) : List (String × ℤ) := scanCols cols

/-- `DataFrame.drop_duplicates()` with the default `keep="first"`:
keep the first occurrence of each value, in order. -/
def dedupKeepFirst {α : Type} [DecidableEq α] : List α → List α
  | [] => []
  | x :: xs => x :: (dedupKeepFirst xs).filter (fun y => y ≠ x)

/-- A row of the tidy catalog produced by `clean_catalog`. -/
structure TidyRow where
  item : String
  product_number : ℤ
  current_qty : ℤ
  sort_order : ℕ
deriving DecidableEq, Repr

/-- `clean_catalog` (lines 45–84): scan the wide table into candidate
rows, drop exact duplicates (first kept), collapse whitespace in the
item text, drop rows whose item became empty, set `current_qty` to 0 and
`sort_order` to the 0-based emission index. -/
def clean_catalog (cols : List (List Cell)) : List TidyRow :=
  let deduped := dedupKeepFirst (builtRows cols)
  let collapsed := deduped.map (fun r => (collapseWs r.1, r.2))
  let kept := collapsed.filter (fun r => r.1.length > 0)
  kept.enum.map (fun p => TidyRow.mk p.2.1 p.2.2 0 p.1)

/-- `init_catalog` (lines 96–112), restricted to its catalog effect: if
the upload normalizes to an empty table the existing catalog is left
untouched, otherwise it is replaced by the normalized table. -/
def init_catalog_model (current : List TidyRow) (upload : List (List Cell)) :
    List TidyRow :=
  let tidy := clean_catalog upload
  if tidy.isEmpty then current else tidy

/-- A typed row of the order log file, after the numeric coercions of
`append_log` (`qty` to int, `product_number` to nullable Int64). -/
structure LogRow where
  item : String
  product_number : Option ℤ
  qty : ℤ
  ordered_at : String
  orderer : String
deriving DecidableEq, Repr

/-- One line of an order DataFrame (columns `item, product_number, qty`). -/
structure OrderLine where
  item : String
  product_number : Option ℤ
  qty : ℤ
deriving DecidableEq, Repr

/-- `df["ordered_at"] = now; df["orderer"] = orderer` in `append_log`. -/
def attachRow (orderer now : String) (l : OrderLine) : LogRow :=
  LogRow.mk l.item l.product_number l.qty now orderer

/-- `append_log` (lines 155–183): stamp the new rows with the shared
timestamp and orderer; when the previous log is non-empty, concatenate
originals-then-new and drop full-tuple duplicates keeping the first
occurrence; when it is empty, write just the new rows (the dedup branch
is not taken). -/
def append_log_model (lines : List OrderLine) (orderer now : String)
    (prev : List LogRow) : List LogRow :=
  let df := lines.map (attachRow orderer now)
  if prev.isEmpty then df else dedupKeepFirst (prev ++ df)

/-- A log row paired with its parsed `ordered_at` timestamp. -/
abbrev TimedRow := LogRow × ℤ

/-- Stable insertion into a time-sorted list (equal timestamps: the new,
originally-earlier element goes in front of the run of equals only when
it is inserted before them, i.e. earlier elements keep earlier slots). -/
def insertByTime (x : TimedRow) : List TimedRow → List TimedRow
  | [] => [x]
  | y :: ys => if x.2 ≤ y.2 then x :: y :: ys else y :: insertByTime x ys

/-- `logs.sort_values("ordered_at")`, modelled as a stable sort. -/
def sortByTime : List TimedRow → List TimedRow
  | [] => []
  | x :: xs => insertByTime x (sortByTime xs)

/-- The `groupby` key `(item, product_number)`. -/
def logKey (e : TimedRow) : String × Option ℤ := (e.1.item, e.1.product_number)

/-- `groupby(key).tail(1)` / `drop_duplicates(subset=key, keep="last")`:
keep, in order, only the last row of each key group. -/
def dedupKeepLastBy {α β : Type} [DecidableEq β] (key : α → β) : List α → List α
  | [] => []
  | x :: xs =>
    if xs.any (fun y => key y = key x) then dedupKeepLastBy key xs
    else x :: dedupKeepLastBy key xs

/-- A row of the derived last-ordered table. -/
structure LOIRow where
  item : String
  product_number : Option ℤ
  last_ordered_at : ℤ
  last_qty : ℤ
deriving DecidableEq, Repr

/-- The final column projection/renaming of `last_order_info_map`. -/
def mkLOI (e : TimedRow) : LOIRow := LOIRow.mk e.1.item e.1.product_number e.2 e.1.qty

/-- `last_order_info_map` (lines 202–220): parse `ordered_at` with
`pd.to_datetime(errors="coerce")` (modelled by the parameter `parse`)
and drop unparsable rows; sort by the parsed timestamp; take the last
row of each `(item, product_number)` group (`groupby(...).tail(1)`;
pandas `groupby` silently drops rows whose key contains NaN, hence the
`product_number ≠ none` filter). -/
def last_order_info_map (parse : String → Option ℤ) (logs : List LogRow) :
    List LOIRow :=
  let parsed := logs.filterMap (fun r => (parse r.ordered_at).map (fun t => (r, t)))
  let sorted := sortByTime parsed
  let grouped := dedupKeepLastBy logKey (sorted.filter (fun e => e.1.product_number ≠ none))
  grouped.map mkLOI

/-- Modelled from the spec ("within each group select the entry with the
maximum timestamp; ties: last one encountered in the log's on-disk order
is kept"): a left fold that replaces the current best on every
greater-or-equal timestamp. -/
def pickLater (acc : Option TimedRow) (e : TimedRow) : Option TimedRow :=
  match acc with
  | none => some e
  | some a => if a.2 ≤ e.2 then some e else some a

/-- Modelled from the spec: the selected entry of one group. -/
def argmaxLast (g : List TimedRow) : Option TimedRow := g.foldl pickLater none

/-- Declarative reading of the spec's selection rule: `e` splits the
group into earlier entries with timestamps `≤` and later entries with
timestamps strictly `<` — i.e. `e` has the maximum timestamp and is the
last entry achieving it. -/
def IsLastMax (g : List TimedRow) (e : TimedRow) : Prop :=
  ∃ l₁ l₂, g = l₁ ++ e :: l₂ ∧ (∀ x ∈ l₁, x.2 ≤ e.2) ∧ (∀ x ∈ l₂, x.2 < e.2)

/-- A typed catalog row as produced by `read_catalog` (lines 117–140):
`product_number` nullable Int64, `current_qty` and `sort_order` ints. -/
structure CatRow where
  item : String
  product_number : Option ℤ
  current_qty : ℤ
  sort_order : ℤ
deriving DecidableEq, Repr

/-- `astype(str)` / `str(...)` on a nullable Int64 value. -/
def pnStr : Option ℤ → String
  | some n => toString n
  | none => "<NA>"

/-- The row mask of the decrement loop (line 455):
`(cat2["item"] == r["item"]) & (cat2["product_number"].astype(str) == str(r["product_number"]))`. -/
def matchesKey (it pn : String) (r : CatRow) : Bool :=
  decide (r.item = it) && decide (pnStr r.product_number = pn)

/-- The masked update of the decrement loop (lines 456–458): subtract
and clip at 0. -/
def decrUpdate (q : ℤ) (r : CatRow) : CatRow :=
  CatRow.mk r.item r.product_number (max 0 (r.current_qty - q)) r.sort_order

/-- One iteration of the decrement loop of `_save_and_log`
(lines 452–458): update every row matching the key, leave the rest. -/
def decrement_catalog (cat : List CatRow) (it pn : String) (q : ℤ) : List CatRow :=
  cat.map (fun r => if matchesKey it pn r then decrUpdate q r else r)

/-- A pandas object-column value as it occurs in the add-item flow:
either an Int64 read from disk, a raw string typed by the user, or NA. -/
inductive PVal where
  | int (n : ℤ)
  | str (s : String)
  | na
deriving DecidableEq, Repr

/-- Integer parsing of a digit string (helper for `toNumericPV`). -/
def parseNatChars (cs : List Char) : Option ℕ :=
  if cs = [] then none
  else if cs.all Char.isDigit then
    some (cs.foldl (fun a c => a * 10 + (c.toNat - 48)) 0)
  else none

/-- `pd.to_numeric(·, errors="coerce").astype("Int64")` on a mixed
object column value (integer-text strings parse, others coerce to NA). -/
def toNumericPV : PVal → Option ℤ
  | PVal.int n => some n
  | PVal.str s =>
    match s.toList with
    | '-' :: cs => (parseNatChars cs).map (fun n => -(n : ℤ))
    | cs => (parseNatChars cs).map (fun n => (n : ℤ))
  | PVal.na => none

/-- A catalog row as it sits in the in-memory DataFrame of the add-item
flow, where `product_number` may be an Int64 or a raw string. -/
structure CatRowRaw where
  item : String
  product_number : PVal
  current_qty : ℤ
  sort_order : ℤ
deriving DecidableEq, Repr

/-- The dedup subset `["item", "product_number"]` of the add-item flow. -/
def rawKey (r : CatRowRaw) : String × PVal := (r.item, r.product_number)

/-- `(cat["sort_order"].max() + 1) if not cat.empty else 0` (line 289). -/
def nextSortOrder (cat : List CatRowRaw) : ℤ :=
  match cat with
  | [] => 0
  | c :: cs => (cs.map (fun r => r.sort_order)).foldl max c.sort_order + 1

/-- The add-item button (lines 287–299): when both inputs are non-blank,
append a new row whose `product_number` is the raw input string, then
`drop_duplicates(subset=["item", "product_number"], keep="last")`. -/
def catalog_add_item (cat : List CatRowRaw) (name prod : String) (qty : ℤ) :
    List CatRowRaw :=
  if stripStr name ≠ "" ∧ stripStr prod ≠ "" then
    dedupKeepLastBy rawKey
      (cat ++ [CatRowRaw.mk (stripStr name) (PVal.str (stripStr prod)) qty
        (nextSortOrder cat)])
  else cat

/-- `write_catalog` (lines 142–152), on the columns it coerces:
`product_number` goes through `pd.to_numeric(errors="coerce").astype("Int64")`. -/
def write_catalog_model (l : List CatRowRaw) : List CatRow :=
  l.map (fun r => CatRow.mk r.item (toNumericPV r.product_number) r.current_qty r.sort_order)

/-- The typed catalog of `read_catalog`, viewed again as the mixed
DataFrame the add-item flow operates on (Int64 stays Int64). -/
def readBackRaw (l : List CatRow) : List CatRowRaw :=
  l.map (fun r =>
    CatRowRaw.mk r.item
      (match r.product_number with
       | some n => PVal.int n
       | none => PVal.na)
      r.current_qty r.sort_order)

/-- A row of the last-order snapshot file. -/
structure LastOrderRow where
  item : String
  product_number : Option ℤ
  qty : ℤ
  generated_at : String
  orderer : String
deriving DecidableEq, Repr

/-- The file-backed state the order tab reads and writes. -/
structure AppState where
  catalog : List CatRow
  log : List LogRow
  lastOrder : List LastOrderRow
  people : List String
deriving DecidableEq, Repr

/-- The two distinct `st.error` rejections of `_make_order_df_from`. -/
inductive ValidationError where
  | emptyOrder
  | noOrderer
deriving DecidableEq, Repr

/-- `_make_order_df_from` (lines 436–444): keep the rows with `qty > 0`;
reject with the empty-order error when none remain, then with the
no-orderer error when the people list is empty or the placeholder
"(add names in sidebar)" is selected; otherwise return the projection. -/
def make_order_df_from (edited : List OrderLine) (people : List String)
    (orderer : String) : Except ValidationError (List OrderLine) :=
  let chosen := edited.filter (fun r => decide (0 < r.qty))
  if chosen.isEmpty then Except.error ValidationError.emptyOrder
  else if people.isEmpty ∨ orderer = "(add names in sidebar)" then
    Except.error ValidationError.noOrderer
  else Except.ok chosen

/-- `save_last_order` (lines 195–200). -/
def save_last_order_model (lines : List OrderLine) (orderer now : String) :
    List LastOrderRow :=
  lines.map (fun l => LastOrderRow.mk l.item l.product_number l.qty now orderer)

/-- `_save_and_log` (lines 446–461): persist the snapshot, append to the
log, and optionally run the decrement loop over the order lines. -/
def save_and_log_model (s : AppState) (lines : List OrderLine)
    (orderer now : String) (doDec : Bool) : AppState :=
  AppState.mk
    (if doDec then
      lines.foldl (fun c l => decrement_catalog c l.item (pnStr l.product_number) l.qty)
        s.catalog
     else s.catalog)
    (append_log_model lines orderer now s.log)
    (save_last_order_model lines orderer now)
    s.people

/-- The generate-order buttons (lines 466–474): build the order from the
edited table; on a validation error nothing is saved, logged or
decremented. -/
def generate_order_btn (s : AppState) (edited : List OrderLine)
    (orderer : String) (doDec : Bool) (now : String) : AppState :=
  match make_order_df_from edited s.people orderer with
  | Except.error _ => s
  | Except.ok lines => save_and_log_model s lines orderer now doDec

/-- The label `f"{r['item']} — {r['product_number']}"` (line 483). -/
def labelOf (r : LogRow) : String := r.item ++ " — " ++ pnStr r.product_number

/-- Clear-selected-history (lines 487–497): keep the rows whose label is
not selected. -/
def clear_selected_model (logs : List LogRow) (sel : List String) : List LogRow :=
  logs.filter (fun r => decide (labelOf r ∉ sel))

/-- Clear-ALL-history (lines 499–502): overwrite the log file with the
bare header; catalog, people and the last-order snapshot are not
touched. -/
def order_tools_clear_all (s : AppState) : AppState :=
  AppState.mk s.catalog [] s.lastOrder s.people

/-! Concrete inputs used by counterexamples and witnesses. -/

/-- A cell that parses as the number `q`. -/
def numCell (q : ℚ) : Cell := Cell.mk "n" (some q)

/-- A non-numeric text cell. -/
def txtCell (s : String) : Cell := Cell.mk s none

/-- A wide table whose name column contains "a  b" (double space) and
"a b": distinct when deduplicated, equal after whitespace collapsing. -/
def wsDupTable : List (List Cell) :=
  [[txtCell "a  b", txtCell "a b", txtCell "c", txtCell "d", txtCell "e", txtCell "f"],
   [numCell 1, numCell 1, numCell 2, numCell 3, numCell 4, numCell 5]]

/-- Six cells, five of them numeric: exactly at the acceptance threshold
`max(5, 0.6)`. -/
def boundaryColAccept : List Cell :=
  [numCell 1, numCell 2, numCell 3, numCell 4, numCell 5, txtCell "x"]

/-- Six cells, four of them numeric: one below the threshold. -/
def boundaryColReject : List Cell :=
  [numCell 1, numCell 2, numCell 3, numCell 4, txtCell "x", txtCell "y"]

/-- A table where a name/number pair is found (column 1 passes the
density test) but every name cell is "nan", so zero rows are emitted. -/
def nanNamesTable : List (List Cell) :=
  [[txtCell "nan", txtCell "nan", txtCell "nan", txtCell "nan", txtCell "nan"],
   [numCell 11, numCell 12, numCell 13, numCell 14, numCell 15]]

/-- A table where no name/number pair is found at all (no column passes
the density test). -/
def noPairsTable : List (List Cell) :=
  [[txtCell "alpha", txtCell "beta", txtCell "gamma", txtCell "delta", txtCell "eps"],
   [txtCell "x", txtCell "y", txtCell "z", txtCell "w", txtCell "v"]]

/-- A table with a fractional product number (7/2, cell text "3.5") and
a leading-zero product number (7, cell text "007"). -/
def fracTable : List (List Cell) :=
  [[txtCell "w1", txtCell "w2", txtCell "w3", txtCell "w4", txtCell "w5"],
   [Cell.mk "3.5" (some (mkRat 7 2)), Cell.mk "007" (some 7), numCell 2,
    numCell 3, numCell 4]]

/-- A timestamp parser for the concrete log instances. -/
def tsParse : String → Option ℤ :=
  fun s => if s = "t1" then some 1 else if s = "t2" then some 2 else none


/-- A small state with one person, used by witnesses. -/
def stPeople : AppState := AppState.mk [] [] [] ["Alice"]

/-- A small state with no people and some files, used by witnesses. -/
def stNoPeople : AppState :=
  AppState.mk [CatRow.mk "G" (some 1001) 10 0]
    [LogRow.mk "G" (some 1001) 3 "t1" "Alice"] [] []

/-- Log with entries for item X at t1 qty 2 and t2 qty 5 (t1 < t2). -/
def twoEntryLog : List LogRow :=
  [LogRow.mk "X" (some 7) 2 "t1" "Alice", LogRow.mk "X" (some 7) 5 "t2" "Alice"]

/-! Properties of `dedupKeepFirst` (pandas `drop_duplicates(keep="first")`). -/

theorem dedupKeepFirst_sublist {α : Type} [DecidableEq α] (l : List α) :
    List.Sublist (dedupKeepFirst l) l := by
  induction l with
  | nil => exact List.Sublist.refl _
  | cons x xs ih =>
    exact List.Sublist.cons₂ x ((List.filter_sublist (dedupKeepFirst xs)).trans ih)

theorem mem_dedupKeepFirst {α : Type} [DecidableEq α] {x : α} {l : List α} :
    x ∈ dedupKeepFirst l ↔ x ∈ l := by
  constructor
  · exact fun h => (dedupKeepFirst_sublist l).subset h
  · intro h
    induction l with
    | nil => simp at h
    | cons y ys ih =>
      rcases List.mem_cons.mp h with rfl | hy
      · exact List.mem_cons_self _ _
      · by_cases hxy : x = y
        · subst hxy; exact List.mem_cons_self _ _
        · exact List.mem_cons.mpr
            (Or.inr (List.mem_filter.mpr ⟨ih hy, by simp [hxy]⟩))

theorem dedupKeepFirst_nodup {α : Type} [DecidableEq α] (l : List α) :
    (dedupKeepFirst l).Nodup := by
  induction l with
  | nil => exact List.nodup_nil
  | cons x xs ih =>
    refine List.nodup_cons.mpr ⟨?_, ih.filter _⟩
    intro hmem
    have := List.of_mem_filter hmem
    simp at this

theorem dedupKeepFirst_eq_self {α : Type} [DecidableEq α] {l : List α}
    (h : l.Nodup) : dedupKeepFirst l = l := by
  induction l with
  | nil => rfl
  | cons x xs ih =>
    rcases List.nodup_cons.mp h with ⟨hx, hxs⟩
    rw [dedupKeepFirst, ih hxs, List.filter_eq_self.mpr]
    intro y hy
    simp only [ne_eq, decide_eq_true_eq]
    exact fun he => hx (he ▸ hy)

theorem dedupKeepFirst_append_mem {α : Type} [DecidableEq α] {l : List α} {x : α}
    (h : l.Nodup) (hx : x ∈ l) : dedupKeepFirst (l ++ [x]) = l := by
  induction l with
  | nil => simp at hx
  | cons y ys ih =>
    rcases List.nodup_cons.mp h with ⟨hy, hys⟩
    rcases List.mem_cons.mp hx with rfl | hxys
    · have hnd : (ys ++ [x]).Nodup := by
        rw [List.nodup_append]
        refine ⟨hys, List.nodup_singleton x, ?_⟩
        intro a ha hax
        rcases List.mem_singleton.mp hax with rfl
        exact hy ha
      rw [List.cons_append, dedupKeepFirst, dedupKeepFirst_eq_self hnd,
        List.filter_append]
      have h1 : ys.filter (fun z => z ≠ x) = ys := by
        rw [List.filter_eq_self.mpr]
        intro z hz
        simp only [ne_eq, decide_eq_true_eq]
        exact fun he => hy (he ▸ hz)
      have h2 : [x].filter (fun z => z ≠ x) = [] := by simp
      rw [h1, h2, List.append_nil]
    · rw [List.cons_append, dedupKeepFirst, ih hys hxys,
        List.filter_eq_self.mpr]
      intro z hz
      simp only [ne_eq, decide_eq_true_eq]
      exact fun he => hy (he ▸ hz)

theorem dedupKeepFirst_append_not_mem {α : Type} [DecidableEq α] {l : List α}
    {x : α} (h : l.Nodup) (hx : x ∉ l) : dedupKeepFirst (l ++ [x]) = l ++ [x] := by
  refine dedupKeepFirst_eq_self ?_
  rw [List.nodup_append]
  refine ⟨h, List.nodup_singleton x, ?_⟩
  intro a ha hax
  rcases List.mem_singleton.mp hax with rfl
  exact hx ha

/-! Claim C2: deduplication and `sort_order` in `clean_catalog`. -/

/-- C2 counterexample: the claim "the output of normalize contains no
two rows with the same (item, product_number) pair" is false, because
deduplication runs before whitespace collapsing.  The wide table
`wsDupTable` has name cells "a  b" and "a b" with the same product
number 1; both survive `drop_duplicates` and then collapse to the same
item "a b". -/
theorem clean_catalog_dup_counterexample :
    (clean_catalog wsDupTable).map (fun r => (r.item, r.product_number)) =
      [("a b", 1), ("a b", 1), ("c", 2), ("d", 3), ("e", 4), ("f", 5)] ∧
    ¬ ((clean_catalog wsDupTable).map (fun r => (r.item, r.product_number))).Nodup := by
  exact ⟨by decide, by decide⟩

/-- C2 (amended): the normalizer deduplicates exact duplicates of the
built rows (stripped but not yet whitespace-collapsed) keeping the first
occurrence, then collapses whitespace, drops empty items, and assigns
`sort_order` as the 0-based emission index; hence `sort_order` is
exactly 0,…,N−1 in row order and the deduplicated built rows are
pairwise distinct, but two output rows may share the same final
(item, product_number) when whitespace collapsing merges their items. -/
theorem clean_catalog_sort_order_range (cols : List (List Cell)) :
    (clean_catalog cols).map (fun r => r.sort_order) =
      List.range ((clean_catalog cols).length) ∧
    (clean_catalog cols).map (fun r => (r.item, r.product_number)) =
      ((dedupKeepFirst (builtRows cols)).map (fun p => (collapseWs p.1, p.2))).filter
        (fun p => p.1.length > 0) ∧
    (dedupKeepFirst (builtRows cols)).Nodup := by
  refine ⟨?_, ?_, dedupKeepFirst_nodup _⟩
  · simp only [clean_catalog, List.map_map, List.length_map]
    have h1 : ((fun r : TidyRow => r.sort_order) ∘
        (fun p : ℕ × (String × ℤ) => TidyRow.mk p.2.1 p.2.2 0 p.1)) = Prod.fst := rfl
    rw [h1, List.enum_map_fst, List.enum_length]
  · simp only [clean_catalog, List.map_map]
    have h1 : ((fun r : TidyRow => (r.item, r.product_number)) ∘
        (fun p : ℕ × (String × ℤ) => TidyRow.mk p.2.1 p.2.2 0 p.1)) = Prod.snd := rfl
    rw [h1, List.enum_map_snd]

/-! Claim C3: the numeric-density acceptance threshold. -/

/-- C3: a candidate column is accepted exactly when its count of numeric
values is at least `max(5, 10% of the row count)`; a column with exactly
the (integer) threshold count is accepted and one with one fewer is
rejected. -/
theorem acceptCol_boundary (col : List Cell) (m : ℕ)
    (hm : (m : ℚ) = ratMax 5 (mkRat (col.length) 10)) :
    (acceptCol col = true ↔
      ratMax 5 (mkRat (col.length) 10) ≤ (countNumeric col : ℚ)) ∧
    (countNumeric col = m → acceptCol col = true) ∧
    (countNumeric col + 1 = m → acceptCol col = false) := by
  refine ⟨by simp [acceptCol], ?_, ?_⟩
  · intro h
    simp only [acceptCol, decide_eq_true_eq, ← hm, h]
    exact le_rfl
  · intro h
    simp only [acceptCol, decide_eq_false_iff_not, not_le, ← hm, ← h]
    push_cast
    linarith

/-- C3 witness: with 6 rows the threshold is `max(5, 0.6) = 5`; a column
with exactly 5 numeric cells is accepted and one with 4 is rejected. -/
theorem acceptCol_boundary_witness :
    acceptCol boundaryColAccept = true ∧ acceptCol boundaryColReject = false :=
  ⟨(acceptCol_boundary boundaryColAccept 5 (by decide)).2.1 (by decide),
   (acceptCol_boundary boundaryColReject 5 (by decide)).2.2 (by decide)⟩

/-! Claim C8: the empty normalization result and the caller's behaviour. -/

/-- C8 counterexample: the "no pairs found" result is not signaled
distinctly from "pairs found but zero rows matched": `nanNamesTable`
has an accepted product column (pairs found, zero rows emitted) and
`noPairsTable` has none, yet `clean_catalog` returns the identical empty
table for both. -/
theorem clean_catalog_empty_signal_counterexample :
    clean_catalog nanNamesTable = clean_catalog noPairsTable ∧
    clean_catalog nanNamesTable = [] ∧
    acceptCol (nanNamesTable.getD 1 []) = true ∧
    acceptCol (noPairsTable.getD 1 []) = false := by
  exact ⟨by decide, by decide, by decide, by decide⟩

/-- C8 (amended): `normalize` returns the same empty result whether no
name/number pair was found or pairs were found but no row matched; on
any empty result the caller leaves the existing catalog untouched. -/
theorem init_catalog_empty_untouched (current : List TidyRow)
    (upload : List (List Cell)) (h : clean_catalog upload = []) :
    init_catalog_model current upload = current := by
  simp [init_catalog_model, h]

/-- C8 witness: the caller keeps the existing catalog on the
zero-rows-matched upload. -/
theorem init_catalog_empty_untouched_witness :
    init_catalog_model [TidyRow.mk "kept" 9 0 0] nanNamesTable =
      [TidyRow.mk "kept" 9 0 0] :=
  init_catalog_empty_untouched [TidyRow.mk "kept" 9 0 0] nanNamesTable (by decide)

/-! Claim C10: product numbers are truncated numeric parses. -/

theorem snd_mem_of_mem_enum {α : Type} {l : List α} {p : ℕ × α}
    (h : p ∈ l.enum) : p.2 ∈ l := by
  rw [List.enum_eq_zip_range] at h
  exact (List.of_mem_zip h).2

theorem emitPair_product (nameCol prodCol : List Cell) :
    ∀ p ∈ emitPair nameCol prodCol,
      ∃ c ∈ prodCol, ∃ q, c.numVal = some q ∧ p.2 = truncQ q := by
  intro p hp
  rcases List.mem_filterMap.mp hp with ⟨nc, hnc, hf⟩
  dsimp only at hf
  cases hnv : nc.2.numVal with
  | none => rw [hnv] at hf; exact absurd hf (by simp)
  | some q =>
    refine ⟨nc.2, (List.of_mem_zip hnc).2, q, hnv, ?_⟩
    rw [hnv] at hf
    dsimp only at hf
    by_cases hcond : stripStr nc.1.text ≠ "" ∧ lowerStr (stripStr nc.1.text) ≠ "nan"
    · rw [if_pos hcond] at hf
      cases hf
      rfl
    · rw [if_neg hcond] at hf
      exact absurd hf (by simp)

theorem scanCols_product (cols : List (List Cell)) :
    ∀ p ∈ scanCols cols,
      ∃ c ∈ cols.flatten, ∃ q, c.numVal = some q ∧ p.2 = truncQ q := by
  induction cols using scanCols.induct with
  | case1 => intro p hp; simp [scanCols] at hp
  | case2 c => intro p hp; simp [scanCols] at hp
  | case3 c c2 rest pcol hfind ih =>
    intro p hp
    rw [scanCols, hfind] at hp
    rcases List.mem_append.mp hp with hemit | hrec
    · rcases emitPair_product c pcol p hemit with ⟨cell, hcell, q, hq, hpq⟩
      have hpc : pcol ∈ c2 :: rest :=
        (List.take_sublist 3 (c2 :: rest)).subset (List.mem_of_find?_eq_some hfind)
      exact ⟨cell, List.mem_flatten.mpr ⟨pcol, List.mem_cons_of_mem c hpc, hcell⟩, q, hq, hpq⟩
    · rcases ih p hrec with ⟨cell, hcell, q, hq, hpq⟩
      rcases List.mem_flatten.mp hcell with ⟨col, hcol, hcc⟩
      exact ⟨cell,
        List.mem_flatten.mpr ⟨col, List.mem_cons_of_mem c (List.mem_cons_of_mem c2 hcol), hcc⟩,
        q, hq, hpq⟩
  | case4 c c2 rest hfind ih =>
    intro p hp
    rw [scanCols, hfind] at hp
    rcases ih p hp with ⟨cell, hcell, q, hq, hpq⟩
    rcases List.mem_flatten.mp hcell with ⟨col, hcol, hcc⟩
    exact ⟨cell, List.mem_flatten.mpr ⟨col, List.mem_cons_of_mem c hcol, hcc⟩, q, hq, hpq⟩

/-- C10: every row emitted by the normalizer carries a product number
equal to the truncation toward zero of the numeric parse of some cell of
the table, and a column pair whose product cells all fail to parse emits
no rows at all. -/
theorem clean_catalog_product_trunc (cols : List (List Cell)) :
    (∀ r ∈ clean_catalog cols,
      ∃ c ∈ cols.flatten, ∃ q, c.numVal = some q ∧ r.product_number = truncQ q) ∧
    (∀ nameCol prodCol : List Cell, (∀ c ∈ prodCol, c.numVal = none) →
      emitPair nameCol prodCol = []) := by
  constructor
  · intro r hr
    simp only [clean_catalog] at hr
    rcases List.mem_map.mp hr with ⟨p, hp, rfl⟩
    have hkept := snd_mem_of_mem_enum hp
    have hcoll := List.mem_of_mem_filter hkept
    rcases List.mem_map.mp hcoll with ⟨p0, hp0, hpp⟩
    have hbuilt : p0 ∈ builtRows cols := mem_dedupKeepFirst.mp hp0
    rcases scanCols_product cols p0 hbuilt with ⟨c, hc, q, hq, hq2⟩
    refine ⟨c, hc, q, hq, ?_⟩
    have : p.2.2 = p0.2 := by rw [← hpp]
    simpa [this] using hq2
  · intro nameCol prodCol h
    rw [emitPair, List.filterMap_eq_nil_iff]
    intro nc hnc
    dsimp only
    rw [h nc.2 (List.of_mem_zip hnc).2]

/-- C10 witness: in `fracTable` the cell "3.5" parses as 7/2 and is
truncated to product number 3 (fractional part lost), and "007" parses
as 7 (leading zeros lost). -/
theorem clean_catalog_product_trunc_witness :
    (∃ c ∈ fracTable.flatten, ∃ q, c.numVal = some q ∧
      (TidyRow.mk "w1" 3 0 0).product_number = truncQ q) ∧
    (∃ c ∈ fracTable.flatten, ∃ q, c.numVal = some q ∧
      (TidyRow.mk "w2" 7 0 1).product_number = truncQ q) ∧
    emitPair [txtCell "name"] [txtCell "no-number"] = [] := by
  refine ⟨(clean_catalog_product_trunc fracTable).1 _ (by decide),
    (clean_catalog_product_trunc fracTable).1 _ (by decide),
    (clean_catalog_product_trunc []).2 _ _ ?_⟩
  intro c hc
  rcases List.mem_singleton.mp hc with rfl
  rfl

/-! Claim C1: the last-ordered derivation. -/

theorem insertByTime_all_le {x : TimedRow} {l : List TimedRow}
    (h : ∀ z ∈ l, x.2 ≤ z.2) : insertByTime x l = x :: l := by
  cases l with
  | nil => rfl
  | cons y ys => rw [insertByTime, if_pos (h y (List.mem_cons_self y ys))]

theorem mem_insertByTime {x z : TimedRow} {l : List TimedRow} :
    z ∈ insertByTime x l ↔ z = x ∨ z ∈ l := by
  induction l with
  | nil => simp [insertByTime]
  | cons y ys ih =>
    by_cases hxy : x.2 ≤ y.2
    · rw [insertByTime, if_pos hxy]
      simp only [List.mem_cons]
    · rw [insertByTime, if_neg hxy]
      simp only [List.mem_cons, ih]
      tauto

theorem pairwise_insertByTime {x : TimedRow} {l : List TimedRow}
    (h : l.Pairwise (fun a b => a.2 ≤ b.2)) :
    (insertByTime x l).Pairwise (fun a b => a.2 ≤ b.2) := by
  induction l with
  | nil => simp [insertByTime]
  | cons y ys ih =>
    rcases List.pairwise_cons.mp h with ⟨hy, hys⟩
    by_cases hxy : x.2 ≤ y.2
    · rw [insertByTime, if_pos hxy]
      refine List.pairwise_cons.mpr ⟨?_, h⟩
      intro z hz
      rcases List.mem_cons.mp hz with rfl | hzys
      · exact hxy
      · exact le_trans hxy (hy z hzys)
    · rw [insertByTime, if_neg hxy]
      refine List.pairwise_cons.mpr ⟨?_, ih hys⟩
      intro z hz
      rcases mem_insertByTime.mp hz with rfl | hzys
      · exact (not_le.mp hxy).le
      · exact hy z hzys

theorem pairwise_sortByTime (l : List TimedRow) :
    (sortByTime l).Pairwise (fun a b => a.2 ≤ b.2) := by
  induction l with
  | nil => simp [sortByTime]
  | cons x xs ih => exact pairwise_insertByTime ih

theorem filter_insertByTime (p : TimedRow → Bool) {x : TimedRow}
    {l : List TimedRow} (h : l.Pairwise (fun a b => a.2 ≤ b.2)) :
    (insertByTime x l).filter p =
      if p x then insertByTime x (l.filter p) else l.filter p := by
  induction l with
  | nil =>
    cases hpx : p x
    · simp [insertByTime, hpx]
    · simp [insertByTime, hpx]
  | cons y ys ih =>
    rcases List.pairwise_cons.mp h with ⟨hy, hys⟩
    by_cases hxy : x.2 ≤ y.2
    · rw [insertByTime, if_pos hxy]
      cases hpx : p x
      · rw [List.filter_cons_of_neg (by simp [hpx]), if_neg (by simp [hpx])]
      · rw [List.filter_cons_of_pos (by simp [hpx]), if_pos (by simp [hpx]),
          insertByTime_all_le]
        intro z hz
        rcases List.mem_cons.mp (List.mem_of_mem_filter hz) with rfl | hzys
        · exact hxy
        · exact le_trans hxy (hy z hzys)
    · rw [insertByTime, if_neg hxy]
      cases hpy : p y
      · rw [List.filter_cons_of_neg (by simp [hpy]),
          List.filter_cons_of_neg (by simp [hpy]), ih hys]
      · rw [List.filter_cons_of_pos (by simp [hpy]),
          List.filter_cons_of_pos (by simp [hpy]), ih hys]
        cases hpx : p x
        · rw [if_neg (by simp [hpx]), if_neg (by simp [hpx])]
        · rw [if_pos (by simp [hpx]), if_pos (by simp [hpx])]
          rw [insertByTime, if_neg hxy]

theorem filter_sortByTime (p : TimedRow → Bool) (l : List TimedRow) :
    (sortByTime l).filter p = sortByTime (l.filter p) := by
  induction l with
  | nil => rfl
  | cons x xs ih =>
    rw [sortByTime, filter_insertByTime p (pairwise_sortByTime xs), ih,
      List.filter_cons]
    cases hpx : p x <;> simp [hpx, sortByTime]

theorem insertByTime_ne_nil (x : TimedRow) (l : List TimedRow) :
    insertByTime x l ≠ [] := by
  cases l with
  | nil => simp [insertByTime]
  | cons y ys =>
    rw [insertByTime]
    by_cases hxy : x.2 ≤ y.2 <;> simp [hxy]

theorem getLast?_insertByTime {x : TimedRow} {l : List TimedRow}
    (h : l.Pairwise (fun a b => a.2 ≤ b.2)) :
    (insertByTime x l).getLast? =
      some (match l.getLast? with
            | none => x
            | some z => if x.2 ≤ z.2 then z else x) := by
  induction l with
  | nil => simp [insertByTime]
  | cons y ys ih =>
    rcases List.pairwise_cons.mp h with ⟨hy, hys⟩
    by_cases hxy : x.2 ≤ y.2
    · rw [insertByTime, if_pos hxy]
      cases hz : (y :: ys).getLast? with
      | none => simp [List.getLast?_eq_none_iff] at hz
      | some z =>
        have hzm : z ∈ y :: ys := List.mem_of_getLast?_eq_some hz
        have hxz : x.2 ≤ z.2 := by
          rcases List.mem_cons.mp hzm with rfl | hzys
          · exact hxy
          · exact le_trans hxy (hy z hzys)
        rw [List.getLast?_cons_cons, hz]
        show some z = some (if x.2 ≤ z.2 then z else x)
        rw [if_pos hxz]
    · rw [insertByTime, if_neg hxy]
      cases ys with
      | nil =>
        show (y :: [x] : List TimedRow).getLast? = _
        rw [List.getLast?_cons_cons, List.getLast?_singleton]
        show some x = some (if x.2 ≤ y.2 then y else x)
        rw [if_neg hxy]
      | cons b ys2 =>
        rcases List.exists_cons_of_ne_nil (insertByTime_ne_nil x (b :: ys2))
          with ⟨a, m, hm⟩
        rw [hm, List.getLast?_cons_cons, ← hm, ih hys, List.getLast?_cons_cons]

theorem foldl_pickLater_some (g : List TimedRow) (a : TimedRow) :
    g.foldl pickLater (some a) =
      some (match g.foldl pickLater none with
            | none => a
            | some z => if a.2 ≤ z.2 then z else a) := by
  induction g generalizing a with
  | nil => rfl
  | cons y ys ih =>
    rw [List.foldl_cons, List.foldl_cons]
    have hstep : pickLater (some a) y = some (if a.2 ≤ y.2 then y else a) := by
      by_cases hay : a.2 ≤ y.2 <;> simp [pickLater, hay]
    have hstep0 : pickLater none y = some y := rfl
    rw [hstep, hstep0, ih, ih y]
    cases hm : ys.foldl pickLater none with
    | none =>
      by_cases hay : a.2 ≤ y.2 <;> simp [hay]
    | some z =>
      by_cases hay : a.2 ≤ y.2 <;> by_cases hyz : y.2 ≤ z.2
      · have haz : a.2 ≤ z.2 := le_trans hay hyz
        simp [hay, hyz, haz]
      · simp [hay, hyz]
      · simp [hay, hyz]
      · have hza : ¬ a.2 ≤ z.2 := fun hc =>
          hyz (le_trans (not_le.mp hay).le hc)
        simp [hay, hyz, hza]

theorem getLast?_sortByTime (g : List TimedRow) :
    (sortByTime g).getLast? = argmaxLast g := by
  induction g with
  | nil => rfl
  | cons x xs ih =>
    rw [sortByTime, getLast?_insertByTime (pairwise_sortByTime xs), ih]
    show some (match argmaxLast xs with
          | none => x
          | some z => if x.2 ≤ z.2 then z else x) =
      List.foldl pickLater (some x) xs
    rw [foldl_pickLater_some]
    rfl

theorem foldl_pickLater_isLastMax (g : List TimedRow) :
    ∀ (a e : TimedRow), g.foldl pickLater (some a) = some e →
      (e = a ∧ ∀ x ∈ g, x.2 < a.2) ∨
      (∃ l₁ l₂, g = l₁ ++ e :: l₂ ∧ a.2 ≤ e.2 ∧ (∀ x ∈ l₁, x.2 ≤ e.2) ∧
        (∀ x ∈ l₂, x.2 < e.2)) := by
  induction g with
  | nil =>
    intro a e h
    simp only [List.foldl_nil, Option.some.injEq] at h
    exact Or.inl ⟨h.symm, by simp⟩
  | cons y ys ih =>
    intro a e h
    rw [List.foldl_cons] at h
    by_cases hay : a.2 ≤ y.2
    · have h' : ys.foldl pickLater (some y) = some e := by
        simpa [pickLater, hay] using h
      rcases ih y e h' with ⟨rfl, hall⟩ | ⟨l₁, l₂, heq, hae, h1, h2⟩
      · exact Or.inr ⟨[], ys, rfl, hay, by simp, hall⟩
      · refine Or.inr ⟨y :: l₁, l₂, by rw [heq, List.cons_append],
          le_trans hay hae, ?_, h2⟩
        intro x hx
        rcases List.mem_cons.mp hx with rfl | hxl
        · exact hae
        · exact h1 x hxl
    · have h' : ys.foldl pickLater (some a) = some e := by
        simpa [pickLater, hay] using h
      rcases ih a e h' with ⟨rfl, hall⟩ | ⟨l₁, l₂, heq, hae, h1, h2⟩
      · refine Or.inl ⟨rfl, ?_⟩
        intro x hx
        rcases List.mem_cons.mp hx with rfl | hxys
        · exact not_le.mp hay
        · exact hall x hxys
      · refine Or.inr ⟨y :: l₁, l₂, by rw [heq, List.cons_append],
          hae, ?_, h2⟩
        intro x hx
        rcases List.mem_cons.mp hx with rfl | hxl
        · exact le_trans (not_le.mp hay).le hae
        · exact h1 x hxl

theorem argmaxLast_isLastMax {g : List TimedRow} {e : TimedRow}
    (h : argmaxLast g = some e) : IsLastMax g e := by
  cases g with
  | nil => simp [argmaxLast] at h
  | cons x xs =>
    rw [argmaxLast, List.foldl_cons] at h
    have h' : xs.foldl pickLater (some x) = some e := h
    rcases foldl_pickLater_isLastMax xs x e h' with ⟨rfl, hall⟩ |
      ⟨l₁, l₂, heq, hxe, h1, h2⟩
    · exact ⟨[], xs, rfl, by simp, hall⟩
    · refine ⟨x :: l₁, l₂, by rw [heq, List.cons_append], ?_, h2⟩
      intro z hz
      rcases List.mem_cons.mp hz with rfl | hzl
      · exact hxe
      · exact h1 z hzl

theorem argmaxLast_of_ne_nil {g : List TimedRow} (h : g ≠ []) :
    ∃ e, argmaxLast g = some e := by
  cases g with
  | nil => exact absurd rfl h
  | cons x xs =>
    rw [argmaxLast, List.foldl_cons]
    show ∃ e, xs.foldl pickLater (some x) = some e
    rw [foldl_pickLater_some]
    exact ⟨_, rfl⟩

theorem filter_dedupKeepLastBy {α β : Type} [DecidableEq β] (key : α → β)
    (l : List α) (k : β) :
    (dedupKeepLastBy key l).filter (fun e => key e = k) =
      ((l.filter (fun e => key e = k)).getLast?).toList := by
  induction l with
  | nil => rfl
  | cons x xs ih =>
    by_cases hany : (xs.any (fun y => key y = key x)) = true
    · rw [dedupKeepLastBy, if_pos hany]
      by_cases hk : key x = k
      · have hne : xs.filter (fun e => key e = k) ≠ [] := by
          rcases List.any_eq_true.mp hany with ⟨y, hy, hky⟩
          simp only [decide_eq_true_eq] at hky
          have hyx : y ∈ xs.filter (fun e => key e = k) :=
            List.mem_filter.mpr ⟨hy, by simp [hky, hk]⟩
          exact List.ne_nil_of_mem hyx
        rcases List.exists_cons_of_ne_nil hne with ⟨a, m, hm⟩
        rw [ih, List.filter_cons_of_pos (by simp [hk]), hm,
          List.getLast?_cons_cons]
      · rw [ih, List.filter_cons_of_neg (by simp [hk])]
    · rw [dedupKeepLastBy, if_neg hany]
      have hnone : ∀ y ∈ xs, ¬ key y = key x := by
        intro y hy hc
        exact hany (List.any_eq_true.mpr ⟨y, hy, by simp [hc]⟩)
      by_cases hk : key x = k
      · have hxs : xs.filter (fun e => key e = k) = [] := by
          rw [List.filter_eq_nil_iff]
          intro y hy
          simp only [decide_eq_true_eq]
          exact fun hc => hnone y hy (hk ▸ hc)
        have hdk : (dedupKeepLastBy key xs).filter (fun e => key e = k) = [] := by
          rw [ih, hxs]
          rfl
        rw [List.filter_cons_of_pos (by simp [hk]),
          List.filter_cons_of_pos (by simp [hk]), hdk, hxs]
        rfl
      · rw [List.filter_cons_of_neg (by simp [hk]),
          List.filter_cons_of_neg (by simp [hk])]
        exact ih

/-- C1: `last_order_info_map` first drops the rows whose timestamp fails
to parse (empty mapping when none remain); for each key the returned row
is exactly the group entry selected by `argmaxLast` — the entry with the
maximum timestamp, ties resolved to the entry appearing last in the
log's on-disk order (the `IsLastMax` split); a selected entry exists for
every non-empty group. -/
theorem last_order_info_map_correct (parse : String → Option ℤ)
    (logs : List LogRow) (it : String) (pn : ℤ) :
    (logs.filterMap (fun r => (parse r.ordered_at).map (fun t => (r, t))) = [] →
      last_order_info_map parse logs = []) ∧
    ((last_order_info_map parse logs).filter
        (fun r => r.item = it ∧ r.product_number = some pn) =
      ((argmaxLast
          ((logs.filterMap
              (fun r => (parse r.ordered_at).map (fun t => (r, t)))).filter
            (fun e => logKey e = (it, some pn)))).map mkLOI).toList) ∧
    (∀ g e, argmaxLast g = some e → IsLastMax g e) ∧
    (∀ g, g ≠ [] → ∃ e, argmaxLast g = some e) := by
  refine ⟨?_, ?_, fun g e h => argmaxLast_isLastMax h, fun g h => argmaxLast_of_ne_nil h⟩
  · intro h
    simp [last_order_info_map, h, sortByTime, dedupKeepLastBy]
  · set parsed := logs.filterMap (fun r => (parse r.ordered_at).map (fun t => (r, t)))
      with hparsed
    rw [last_order_info_map]
    rw [List.filter_map]
    have hcong : ((fun r : LOIRow => decide (r.item = it ∧ r.product_number = some pn)) ∘ mkLOI) =
        (fun e : TimedRow => decide (logKey e = (it, some pn))) := by
      funext e
      simp [mkLOI, logKey, Prod.ext_iff]
    rw [hcong]
    rw [filter_dedupKeepLastBy logKey _ (it, some pn)]
    have hff : ((sortByTime parsed).filter
          (fun e => decide (e.1.product_number ≠ none))).filter
          (fun e => decide (logKey e = (it, some pn))) =
        (sortByTime parsed).filter (fun e => decide (logKey e = (it, some pn))) := by
      rw [List.filter_filter]
      refine List.filter_congr ?_
      intro e _
      by_cases hk : logKey e = (it, some pn)
      · have : e.1.product_number = some pn := congrArg Prod.snd hk
        simp [hk, this]
      · simp [hk]
    rw [hff, filter_sortByTime, getLast?_sortByTime]
    cases argmaxLast (parsed.filter (fun e => decide (logKey e = (it, some pn)))) with
    | none => rfl
    | some e => rfl

/-- C1 witness: a log whose only entry has an unparsable timestamp
derives to the empty mapping, and the two-entry log for item X (qty 2 at
t1, qty 5 at t2 with t1 < t2) derives, for X, last_ordered_at = t2 and
last_qty = 5. -/
theorem last_order_info_map_correct_witness :
    last_order_info_map tsParse [LogRow.mk "X" (some 7) 2 "bad" "Alice"] = [] ∧
    (last_order_info_map tsParse twoEntryLog).filter
      (fun r => r.item = "X" ∧ r.product_number = some (7 : ℤ)) =
      [LOIRow.mk "X" (some 7) 2 5] := by
  constructor
  · exact (last_order_info_map_correct tsParse _ "X" 7).1 (by decide)
  · rw [(last_order_info_map_correct tsParse twoEntryLog "X" 7).2.1]
    decide

/-! Claim C4: `append_log` deduplication. -/

/-- C4 counterexample: with an empty existing log the dedup branch is
not taken, so a batch containing the same entry twice is written with
both copies — "removes rows that duplicate an earlier row in all five
fields, keeping the first occurrence" fails at this input. -/
theorem append_log_counterexample :
    append_log_model [OrderLine.mk "a" (some 1) 2, OrderLine.mk "a" (some 1) 2]
        "Alice" "2024-01-02 03:04:05" [] =
      [LogRow.mk "a" (some 1) 2 "2024-01-02 03:04:05" "Alice",
       LogRow.mk "a" (some 1) 2 "2024-01-02 03:04:05" "Alice"] ∧
    ¬ (append_log_model [OrderLine.mk "a" (some 1) 2, OrderLine.mk "a" (some 1) 2]
        "Alice" "2024-01-02 03:04:05" []).Nodup :=
  ⟨by decide, by decide⟩

/-- C4 (amended): `append_log` stamps every new entry with the shared
timestamp and orderer; when the existing log is non-empty the written
log is the originals-before-new union with full-tuple duplicates of
earlier rows removed (first occurrence kept: the result is duplicate
free, an order-preserving subsequence of the union, and keeps every row
of the union); when the existing log is empty the batch is written
without deduplication.  For a duplicate-free non-empty log, appending an
entry identical to an existing row in all five fields leaves the log
unchanged, and appending an entry differing from every existing row adds
exactly that row at the end. -/
theorem append_log_amended (lines : List OrderLine) (orderer now : String)
    (prev : List LogRow) :
    (∀ r ∈ lines.map (attachRow orderer now),
      r.ordered_at = now ∧ r.orderer = orderer) ∧
    (prev = [] →
      append_log_model lines orderer now prev = lines.map (attachRow orderer now)) ∧
    (prev ≠ [] →
      (append_log_model lines orderer now prev).Nodup ∧
      List.Sublist (append_log_model lines orderer now prev)
        (prev ++ lines.map (attachRow orderer now)) ∧
      (∀ x, (x ∈ prev ∨ x ∈ lines.map (attachRow orderer now)) →
        x ∈ append_log_model lines orderer now prev)) ∧
    (prev ≠ [] → prev.Nodup → ∀ l : OrderLine,
      (attachRow orderer now l ∈ prev →
        append_log_model [l] orderer now prev = prev) ∧
      (attachRow orderer now l ∉ prev →
        append_log_model [l] orderer now prev =
          prev ++ [attachRow orderer now l])) := by
  refine ⟨?_, ?_, ?_, ?_⟩
  · intro r hr
    rcases List.mem_map.mp hr with ⟨l, hl, rfl⟩
    exact ⟨rfl, rfl⟩
  · intro h
    subst h
    rfl
  · intro h
    have hie : prev.isEmpty = false := by
      cases prev with
      | nil => exact absurd rfl h
      | cons a m => rfl
    refine ⟨?_, ?_, ?_⟩
    · simp only [append_log_model, hie, Bool.false_eq_true, if_false]
      exact dedupKeepFirst_nodup _
    · simp only [append_log_model, hie, Bool.false_eq_true, if_false]
      exact dedupKeepFirst_sublist _
    · intro x hx
      simp only [append_log_model, hie, Bool.false_eq_true, if_false]
      exact mem_dedupKeepFirst.mpr (List.mem_append.mpr hx)
  · intro h hnd l
    have hie : prev.isEmpty = false := by
      cases prev with
      | nil => exact absurd rfl h
      | cons a m => rfl
    constructor
    · intro hin
      simp only [append_log_model, hie, Bool.false_eq_true, if_false,
        List.map_cons, List.map_nil]
      exact dedupKeepFirst_append_mem hnd hin
    · intro hnin
      simp only [append_log_model, hie, Bool.false_eq_true, if_false,
        List.map_cons, List.map_nil]
      exact dedupKeepFirst_append_not_mem hnd hnin

/-- C4 witness: on the duplicate-free one-row log, appending the
identical entry keeps the log at one row, and appending a fresh entry
appends exactly it. -/
theorem append_log_amended_witness :
    append_log_model [OrderLine.mk "b" (some 2) 1] "Alice" "t"
        [LogRow.mk "b" (some 2) 1 "t" "Alice"] =
      [LogRow.mk "b" (some 2) 1 "t" "Alice"] ∧
    append_log_model [OrderLine.mk "c" (some 3) 4] "Alice" "t"
        [LogRow.mk "b" (some 2) 1 "t" "Alice"] =
      [LogRow.mk "b" (some 2) 1 "t" "Alice", LogRow.mk "c" (some 3) 4 "t" "Alice"] := by
  constructor
  · exact ((append_log_amended [OrderLine.mk "b" (some 2) 1] "Alice" "t"
      [LogRow.mk "b" (some 2) 1 "t" "Alice"]).2.2.2 (by decide) (by decide)
      (OrderLine.mk "b" (some 2) 1)).1 (by decide)
  · exact (((append_log_amended [OrderLine.mk "c" (some 3) 4] "Alice" "t"
      [LogRow.mk "b" (some 2) 1 "t" "Alice"]).2.2.2 (by decide) (by decide)
      (OrderLine.mk "c" (some 3) 4)).2 (by decide)).trans (by decide)

/-! Claim C5: the decrement loop clamps at 0 and skips non-matches. -/

/-- C5: one pass of the decrement loop maps each catalog row matching
the string-compared (item, product_number) key to the same row with
`current_qty` set to `max 0 (current_qty − qty)` (hence never negative)
and leaves every other row unchanged; when no row matches, the catalog
is unchanged. -/
theorem decrement_catalog_correct (cat : List CatRow) (it pn : String) (q : ℤ) :
    ((∀ r ∈ cat, matchesKey it pn r = false) →
      decrement_catalog cat it pn q = cat) ∧
    (∀ i : ℕ, (decrement_catalog cat it pn q)[i]? =
      (cat[i]?).map (fun r => if matchesKey it pn r then decrUpdate q r else r)) ∧
    (∀ r ∈ decrement_catalog cat it pn q,
      matchesKey it pn r = true → 0 ≤ r.current_qty) ∧
    (∀ r : CatRow, (decrUpdate q r).current_qty = max 0 (r.current_qty - q)) := by
  refine ⟨?_, ?_, ?_, fun r => rfl⟩
  · intro h
    rw [decrement_catalog,
      List.map_congr_left (fun r hr => if_neg (by simp [h r hr]))]
    simp
  · intro i
    simp [decrement_catalog]
  · intro r hr hm
    rcases List.mem_map.mp hr with ⟨r0, hr0, rfl⟩
    by_cases h0 : matchesKey it pn r0 = true
    · rw [if_pos h0]
      exact le_max_left 0 _
    · rw [if_neg h0] at hm
      exact absurd hm h0

/-- C5 witness: a non-matching key leaves the catalog untouched, and a
decrement of 5 from quantity 2 clamps to 0. -/
theorem decrement_catalog_correct_witness :
    decrement_catalog [CatRow.mk "G" (some 1001) 10 0] "H" "1001" 3 =
      [CatRow.mk "G" (some 1001) 10 0] ∧
    (decrement_catalog [CatRow.mk "G" (some 1001) 2 0] "G" "1001" 5)[0]? =
      some (CatRow.mk "G" (some 1001) 0 0) := by
  constructor
  · exact (decrement_catalog_correct [CatRow.mk "G" (some 1001) 10 0]
      "H" "1001" 3).1 (by decide)
  · rw [(decrement_catalog_correct [CatRow.mk "G" (some 1001) 2 0]
      "G" "1001" 5).2.1 0]
    decide

/-! Claim C6: the add-item upsert. -/

/-- C6 (code bug): inserting ("Gloves", "1001") twice with quantities 5
then 7: the stored Int64 product number 1001 and the newly typed string
"1001" never compare equal inside
`drop_duplicates(subset=["item", "product_number"], keep="last")`, so no
overwrite happens and the written catalog holds two rows for the same
(item, product_number) key — the `keep="last"` dedup the code clearly
intends as an upsert never fires. -/
theorem catalog_add_item_no_overwrite :
    write_catalog_model (catalog_add_item (readBackRaw (write_catalog_model
        (catalog_add_item [] "Gloves" "1001" 5))) "Gloves" "1001" 7) =
      [CatRow.mk "Gloves" (some 1001) 5 0, CatRow.mk "Gloves" (some 1001) 7 1] := by
  decide

/-! Claim C7: order validation and absence of side effects. -/

/-- C7: building with every quantity ≤ 0 is rejected with the
empty-order error, and building with a positive quantity but no orderer
available (empty people list or the placeholder selection) is rejected
with the no-orderer error; in both cases the state (catalog, log,
last-order snapshot, people) is completely unchanged. -/
theorem make_order_validation (s : AppState) (edited : List OrderLine)
    (orderer : String) (doDec : Bool) (now : String) :
    ((∀ r ∈ edited, r.qty ≤ 0) →
      make_order_df_from edited s.people orderer =
        Except.error ValidationError.emptyOrder ∧
      generate_order_btn s edited orderer doDec now = s) ∧
    ((∃ r ∈ edited, 0 < r.qty) →
      (s.people = [] ∨ orderer = "(add names in sidebar)") →
      make_order_df_from edited s.people orderer =
        Except.error ValidationError.noOrderer ∧
      generate_order_btn s edited orderer doDec now = s) := by
  constructor
  · intro h
    have hfil : edited.filter (fun r => decide (0 < r.qty)) = [] := by
      rw [List.filter_eq_nil_iff]
      intro r hr
      simp only [decide_eq_true_eq, not_lt]
      exact h r hr
    have hmk : make_order_df_from edited s.people orderer =
        Except.error ValidationError.emptyOrder := by
      simp [make_order_df_from, hfil]
    exact ⟨hmk, by simp [generate_order_btn, hmk]⟩
  · intro h hno
    rcases h with ⟨r, hr, hq⟩
    have hfil : edited.filter (fun r => decide (0 < r.qty)) ≠ [] :=
      List.ne_nil_of_mem (List.mem_filter.mpr ⟨hr, by simp [hq]⟩)
    have hmk : make_order_df_from edited s.people orderer =
        Except.error ValidationError.noOrderer := by
      have hcond : (s.people.isEmpty = true) ∨ orderer = "(add names in sidebar)" := by
        rcases hno with h1 | h2
        · exact Or.inl (by simp [h1])
        · exact Or.inr h2
      simp only [make_order_df_from]
      rw [if_neg (by simpa using hfil), if_pos hcond]
    exact ⟨hmk, by simp [generate_order_btn, hmk]⟩

/-- C7 witness: both rejections on concrete states, with the state
returned unchanged. -/
theorem make_order_validation_witness :
    (make_order_df_from [OrderLine.mk "a" (some 1) 0] stPeople.people "Alice" =
      Except.error ValidationError.emptyOrder ∧
     generate_order_btn stPeople [OrderLine.mk "a" (some 1) 0] "Alice" true "t" =
       stPeople) ∧
    (make_order_df_from [OrderLine.mk "a" (some 1) 3] stNoPeople.people
        "(add names in sidebar)" = Except.error ValidationError.noOrderer ∧
     generate_order_btn stNoPeople [OrderLine.mk "a" (some 1) 3]
        "(add names in sidebar)" false "t" = stNoPeople) := by
  constructor
  · exact (make_order_validation stPeople [OrderLine.mk "a" (some 1) 0]
      "Alice" true "t").1 (by decide)
  · exact (make_order_validation stNoPeople [OrderLine.mk "a" (some 1) 3]
      "(add names in sidebar)" false "t").2 (by decide) (Or.inl (by decide))

/-! Claim C9: clear-all truncates only the log. -/

/-- C9: clear-all empties the log while leaving catalog, people list and
last-order snapshot untouched; no other modelled operation empties a
non-empty log: `append_log` on a non-empty log always leaves a non-empty
log, and clear-selected keeps every row whose label is not selected. -/
theorem clear_all_frame (s : AppState) :
    (order_tools_clear_all s).log = [] ∧
    (order_tools_clear_all s).catalog = s.catalog ∧
    (order_tools_clear_all s).people = s.people ∧
    (order_tools_clear_all s).lastOrder = s.lastOrder ∧
    (∀ (lines : List OrderLine) (orderer now : String) (prev : List LogRow),
      prev ≠ [] → append_log_model lines orderer now prev ≠ []) ∧
    (∀ (logs : List LogRow) (sel : List String) (r : LogRow),
      r ∈ logs → labelOf r ∉ sel → clear_selected_model logs sel ≠ []) := by
  refine ⟨rfl, rfl, rfl, rfl, ?_, ?_⟩
  · intro lines orderer now prev h
    rcases List.exists_cons_of_ne_nil h with ⟨a, m, rfl⟩
    simp [append_log_model, List.cons_append, dedupKeepFirst]
  · intro logs sel r hr hlab
    exact List.ne_nil_of_mem (List.mem_filter.mpr ⟨hr, by simp [hlab]⟩)

/-- C9 witness: on a one-row log, append keeps the log non-empty and
clear-selected with a non-matching selection keeps the row. -/
theorem clear_all_frame_witness :
    append_log_model [] "Alice" "t" [LogRow.mk "b" (some 2) 1 "t" "Alice"] ≠ [] ∧
    clear_selected_model [LogRow.mk "b" (some 2) 1 "t" "Alice"] ["X — 9"] ≠ [] := by
  constructor
  · exact (clear_all_frame stPeople).2.2.2.2.1 [] "Alice" "t"
      [LogRow.mk "b" (some 2) 1 "t" "Alice"] (by decide)
  · exact (clear_all_frame stPeople).2.2.2.2.2
      [LogRow.mk "b" (some 2) 1 "t" "Alice"] ["X — 9"]
      (LogRow.mk "b" (some 2) 1 "t" "Alice") (by decide) (by decide)

end SupplyTracker
